import Mathlib

/-!
Shallow embedding of the UTXO coin-selection and transaction-crafting engine
of `src/bitcoind/tx.go` (package `bitcoind` of pinklite34/payserver).

Modelling conventions:
* `btcutil.Amount` (an int64 satoshi count) is modelled as `Int`; the
  amounts handled by the engine stay far below the int64 wrap-around, which
  is therefore not modelled.
* The node-reported `float64` amount of a `btcjson.ListUnspentResult` is
  modelled by `NodeAmount`: either a value that `btcutil.NewAmount`
  converts to an integer satoshi count, or a non-convertible (non-finite)
  value on which `btcutil.NewAmount` errors.
* Go's `map[string]btcjson.ListUnspentResult` is modelled as an association
  list keyed by `txID` with a fixed iteration order; Go map insertion
  (overwrite by key) and deletion are modelled by `mapInsertUnspent` /
  `mapDelete`.
* The unbounded `for {}` loop of `coinSelect` is modelled with an explicit
  fuel parameter; `coinSelect` supplies fuel `unspent.length + 1`, and a
  theorem below proves that this fuel is always sufficient, so the `none`
  (out-of-fuel) branch is unreachable.
-/

deriving instance DecidableEq for Except

/-- A node-reported output amount as seen by `btcutil.NewAmount`:
`finite sat` converts to `sat` satoshis, `nonFinite` makes the conversion
fail (e.g. a NaN or infinite float). -/
inductive NodeAmount where
  | finite (sat : Int)
  | nonFinite
deriving DecidableEq

/-- `btcjson.ListUnspentResult`, restricted to the fields the engine reads:
transaction id, output index, and the node-reported amount. -/
structure ListUnspentResult where
  txID : String
  vout : Nat
  amount : NodeAmount
deriving DecidableEq

/-- The errors of the pure selection layer: `insufficientFunds needed
available` models `*ErrInsufficientFunds{amountNeeded, amountAvailable}`;
`conversionError` models the error of `btcutil.NewAmount` on a
non-convertible amount. -/
inductive CoinErr where
  | insufficientFunds (needed available : Int)
  | conversionError
deriving DecidableEq

/-- Discriminator: is this error an `ErrInsufficientFunds`? -/
def CoinErr.isInsufficient : CoinErr → Bool
  | .insufficientFunds _ _ => true
  | .conversionError => false

/-- `btcutil.NewAmount` on the modelled amount: succeeds with the satoshi
count exactly on finite amounts. -/
def newAmount : NodeAmount → Except CoinErr Int
  | .finite sat => .ok sat
  | .nonFinite => .error .conversionError

/-- The satoshi value of a modelled amount (0 for a non-finite one); used
only to state sums, never by the embedded code on a non-finite amount. -/
def satOf : NodeAmount → Int
  | .finite sat => sat
  | .nonFinite => 0

/-- Sum of the (converted) amounts of a list of unspent outputs. -/
def sumSat : List ListUnspentResult → Int
  | [] => 0
  | u :: rest => satOf u.amount + sumSat rest

/-- Every amount in the list is convertible by `btcutil.NewAmount`. -/
def allFinite (l : List ListUnspentResult) : Prop :=
  ∀ u ∈ l, u.amount ≠ NodeAmount.nonFinite

instance (l : List ListUnspentResult) : Decidable (allFinite l) := by
  unfold allFinite; infer_instance

/-- Every amount in the list is non-negative (true of every amount a node
reports from `listunspent`). -/
def allNonneg (l : List ListUnspentResult) : Prop :=
  ∀ u ∈ l, 0 ≤ satOf u.amount

instance (l : List ListUnspentResult) : Decidable (allNonneg l) := by
  unfold allNonneg; infer_instance

/-- The loop body of `selectInputs` (tx.go lines 56-70): iterate over the
remaining inputs `l` with running total `satSelected` and accumulated
selection `acc`; convert each amount (propagating a conversion error), add
the input, and return as soon as the running total reaches `amt`.
Exhausting the inputs yields `ErrInsufficientFunds{amt, satSelected}`. -/
def selectInputsGo (amt : Int) :
    List ListUnspentResult → Int → List ListUnspentResult →
    Except CoinErr (Int × List ListUnspentResult)
  | [], satSelected, _acc => .error (.insufficientFunds amt satSelected)
  | input :: rest, satSelected, acc =>
    match newAmount input.amount with
    | .error e => .error e
    | .ok amount =>
      let satSelected' := satSelected + amount
      let acc' := acc ++ [input]
      if satSelected' ≥ amt then .ok (satSelected', acc')
      else selectInputsGo amt rest satSelected' acc'

/-- `selectInputs` (tx.go lines 52-71): greedy accumulation, in iteration
order, until the running sum reaches `amt`. -/
def selectInputs (amt : Int) (inputs : List ListUnspentResult) :
    Except CoinErr (Int × List ListUnspentResult) :=
  selectInputsGo amt inputs 0 []

/-- Modelled from the spec: the Fee Weight Estimator (`TxWeightEstimator`
with `AddP2PKHInput`, `AddP2PKHOutput`, `Weight`) is code of this
repository that is not under `src/`. Per the spec (§4.2) each P2PKH input
contributes a fixed weight constant and each P2PKH output a fixed weight
constant, accumulated into a total; the constants `inWeight` and
`outWeight` are left as parameters. -/
def estimateWeight (inWeight outWeight nIn nOut : Nat) : Nat :=
  nIn * inWeight + nOut * outWeight

/-- The result of a successful coin selection: selected outputs, change
amount, required fee. -/
structure SelectionResult where
  selectedUtxos : List ListUnspentResult
  changeAmt : Int
  requiredFee : Int
deriving DecidableEq

/-- The `for {}` loop of `coinSelect` (tx.go lines 214-256), with explicit
fuel (`none` = fuel exhausted; proved unreachable for fuel
`unspent.length + 1`). Each round selects inputs for the current
`amtNeeded`, estimates the weight of a transaction with one P2PKH input
per selected output plus two P2PKH outputs (destination and
always-assumed change), and either restarts with
`amtNeeded = amt + requiredFee` or returns the selection with
`changeAmt = overShootAmt - requiredFee`. -/
def coinSelectLoop (inWeight outWeight feeRatePerWeight : Nat) (amt : Int)
    (unspent : List ListUnspentResult) :
    Nat → Int → Option (Except CoinErr SelectionResult)
  | 0, _ => none
  | fuel + 1, amtNeeded =>
    match selectInputs amtNeeded unspent with
    | .error e => some (.error e)
    | .ok (totalSat, selectedUtxos) =>
      let weight := estimateWeight inWeight outWeight selectedUtxos.length 2
      let requiredFee : Int := (weight * feeRatePerWeight : Nat)
      let overShootAmt := totalSat - amt
      if overShootAmt < requiredFee then
        coinSelectLoop inWeight outWeight feeRatePerWeight amt unspent fuel
          (amt + requiredFee)
      else
        some (.ok ⟨selectedUtxos, overShootAmt - requiredFee, requiredFee⟩)

/-- `coinSelect` (tx.go lines 209-256): run the fee-convergence loop
starting from `amtNeeded = amt`, with fuel `unspent.length + 1`. -/
def coinSelect (inWeight outWeight feeRatePerWeight : Nat) (amt : Int)
    (unspent : List ListUnspentResult) :
    Option (Except CoinErr SelectionResult) :=
  coinSelectLoop inWeight outWeight feeRatePerWeight amt unspent
    (unspent.length + 1) amt

/-! ## The stateful crafting layer (`syncUnspent`, `craftTransaction`) -/

/-- The node RPC calls `craftTransaction`/`syncUnspent` issue, in order:
`unlockAll` is `LockUnspent(true, nil)`, `listUnspent` is
`ListUnspentMinMax`, `lockOutput` is `LockUnspent(false, [outpoint])` for
one selected output, `getNewAddress` is `GetNewAddress("")`, and
`createRawTx` is `CreateRawTransaction` (its recorded payload is the
output map handed to the node). -/
inductive NodeEvent where
  | unlockAll
  | listUnspent
  | lockOutput (txID : String) (vout : Nat)
  | getNewAddress
  | createRawTx (outputs : List (String × Int))
deriving DecidableEq

/-- Discriminator: is this event a per-output `LockUnspent(false, ...)`
call? -/
def NodeEvent.isLockEvent : NodeEvent → Bool
  | .lockOutput _ _ => true
  | _ => false

/-- The errors `craftTransaction`/`syncUnspent` return: each constructor
models one `return nil, 0, err` site of tx.go. -/
inductive CraftErr where
  | unlockFailed
  | syncFailed
  | selectFailed (e : CoinErr)
  | hashFailed
  | lockFailed
  | addrFailed
  | createFailed
  | internal
deriving DecidableEq

/-- The node client (`c.client` plus `chainhash.NewHashFromStr`), modelled
as the responses the node would give to each call during one crafting
sequence. -/
structure ClientModel where
  unlockAllOk : Bool
  listUnspent : Nat → Nat → Except Unit (List ListUnspentResult)
  hashOk : String → Bool
  lockOk : String → Nat → Bool
  getNewAddress : Except Unit String
  createRaw : List (String × Nat) → List (String × Int) → Except Unit String

/-- A node client whose every call succeeds and whose `listunspent` reply
is `l`; used to evaluate the model on concrete runs. -/
def okClientWith (l : List ListUnspentResult) : ClientModel :=
  ⟨true, fun _ _ => .ok l, fun _ => true, fun _ _ => true, .ok "change-addr",
   fun _ _ => .ok "rawtx"⟩

/-- A node client whose `listunspent` query fails and whose other calls
succeed; used to evaluate the model on concrete failing runs. -/
def failListClient : ClientModel :=
  ⟨true, fun _ _ => .error (), fun _ => true, fun _ _ => true,
   .ok "change-addr", fun _ _ => .ok "rawtx"⟩

/-- The connector state the engine reads and writes: the configured
minimum confirmation count (`c.cfg.MinConfirmations`) and the unspent
cache `c.unspent` (`none` models a nil, never-synced map). -/
structure ConnState where
  minConfirmations : Nat
  unspent : Option (List ListUnspentResult)
deriving DecidableEq

/-- Go map insertion `m[u.TxID] = u` on the association-list model:
overwrite the entry with the same key, or append. -/
def mapInsertUnspent (u : ListUnspentResult) :
    List ListUnspentResult → List ListUnspentResult
  | [] => [u]
  | v :: rest =>
    if v.txID = u.txID then u :: rest else v :: mapInsertUnspent u rest

/-- The map rebuild of `syncUnspent` (tx.go lines 88-93): insert every
listed output keyed by its transaction id. -/
def buildUnspentMap (l : List ListUnspentResult) : List ListUnspentResult :=
  l.foldl (fun m u => mapInsertUnspent u m) []

/-- Go map deletion `delete(m, k)` on the association-list model. -/
def mapDelete (k : String) :
    List ListUnspentResult → List ListUnspentResult
  | [] => []
  | v :: rest => if v.txID = k then rest else v :: mapDelete k rest

/-- The cache eviction of `craftTransaction` (tx.go lines 196-200):
`delete(c.unspent, input.TxID)` for every selected input. -/
def removeSelected (sel m : List ListUnspentResult) :
    List ListUnspentResult :=
  sel.foldl (fun acc s => mapDelete s.txID acc) m

/-- Go map insertion on the output map `map[btcutil.Address]btcutil.Amount`. -/
def mapInsertOutput (k : String) (v : Int) :
    List (String × Int) → List (String × Int)
  | [] => [(k, v)]
  | (k0, v0) :: rest =>
    if k0 = k then (k, v) :: rest else (k0, v0) :: mapInsertOutput k v rest

/-- The Go constant `int(math.MaxInt32)` passed as `maxConf`. -/
def maxInt32 : Nat := 2147483647

/-- `syncUnspent` (tx.go lines 74-99): query the node for unspent outputs
with confirmations in `[MinConfirmations, MaxInt32]`; on failure return an
error leaving the state untouched; on success replace the whole cache by
the freshly built map. -/
def syncUnspent (cl : ClientModel) (st : ConnState) :
    Except CraftErr Unit × ConnState :=
  match cl.listUnspent st.minConfirmations maxInt32 with
  | .error _ => (.error .syncFailed, st)
  | .ok unspent => (.ok (), { st with unspent := some (buildUnspentMap unspent) })

/-- The lock loop of `craftTransaction` (tx.go lines 156-174): for each
selected input, parse its txid (`chainhash.NewHashFromStr`, no RPC), then
issue `LockUnspent(false, [outpoint])`; a parse failure or lock failure
aborts with the corresponding error. On success return the
`TransactionInput` list (txid, vout) in selection order. -/
def lockSelected (cl : ClientModel) :
    List ListUnspentResult →
    Except CraftErr (List (String × Nat)) × List NodeEvent
  | [] => (.ok [], [])
  | input :: rest =>
    if cl.hashOk input.txID then
      if cl.lockOk input.txID input.vout then
        match lockSelected cl rest with
        | (.ok ins, tr) =>
          (.ok ((input.txID, input.vout) :: ins),
           .lockOutput input.txID input.vout :: tr)
        | (.error e, tr) =>
          (.error e, .lockOutput input.txID input.vout :: tr)
      else (.error .lockFailed, [.lockOutput input.txID input.vout])
    else (.error .hashFailed, [])

/-- The tail of `craftTransaction` after the output map is complete
(tx.go lines 190-202): `CreateRawTransaction` with zero lock time; on
success evict the selected outputs from the cache and return the raw
transaction together with the required fee. -/
def finishCreate (cl : ClientModel) (inputs : List (String × Nat))
    (outputs : List (String × Int)) (m : List ListUnspentResult)
    (res : SelectionResult) (tr : List NodeEvent) :
    Except CraftErr (String × Int) × List ListUnspentResult ×
      List NodeEvent :=
  match cl.createRaw inputs outputs with
  | .error _ => (.error .createFailed, m, tr ++ [.createRawTx outputs])
  | .ok tx =>
    (.ok (tx, res.requiredFee), removeSelected res.selectedUtxos m,
     tr ++ [.createRawTx outputs])

/-- `craftTransaction` from coin selection onwards (tx.go lines 140-202),
over the resolved cache content `m`: run `coinSelect`, lock the selected
outputs, build the output map with the destination and — exactly when
`changeAmt != 0` — a freshly requested change address, then assemble and
evict. Returns the result, the final cache content, and the node events
issued. -/
def craftAfterCache (inWeight outWeight : Nat) (cl : ClientModel)
    (feeRatePerWeight : Nat) (amt : Int) (address : String)
    (m : List ListUnspentResult) :
    Except CraftErr (String × Int) × List ListUnspentResult ×
      List NodeEvent :=
  match coinSelect inWeight outWeight feeRatePerWeight amt m with
  | none => (.error .internal, m, [])
  | some (.error e) => (.error (.selectFailed e), m, [])
  | some (.ok res) =>
    match lockSelected cl res.selectedUtxos with
    | (.error e, tr) => (.error e, m, tr)
    | (.ok inputs, tr) =>
      if res.changeAmt = 0 then
        finishCreate cl inputs (mapInsertOutput address amt []) m res tr
      else
        match cl.getNewAddress with
        | .error _ => (.error .addrFailed, m, tr ++ [.getNewAddress])
        | .ok changeAddr =>
          finishCreate cl inputs
            (mapInsertOutput changeAddr res.changeAmt
              (mapInsertOutput address amt [])) m res
            (tr ++ [.getNewAddress])

/-- `craftTransaction` (tx.go lines 104-203): unlock all outputs at the
node (`LockUnspent(true, nil)`); if the cache is nil, sync it (the
success path of `syncUnspent`, inlined); then run the selection / lock /
assemble / evict sequence over the cache content. Returns the result
(`(rawTx, requiredFee)` on success), the final connector state, and the
node events issued in order. -/
def craftTransaction (inWeight outWeight : Nat) (cl : ClientModel)
    (st : ConnState) (feeRatePerWeight : Nat) (amt : Int)
    (address : String) :
    Except CraftErr (String × Int) × ConnState × List NodeEvent :=
  if cl.unlockAllOk then
    match st.unspent with
    | none =>
      match cl.listUnspent st.minConfirmations maxInt32 with
      | .error _ => (.error .syncFailed, st, [.unlockAll, .listUnspent])
      | .ok l =>
        ((craftAfterCache inWeight outWeight cl feeRatePerWeight amt
            address (buildUnspentMap l)).1,
         { st with unspent := some (craftAfterCache inWeight outWeight cl
            feeRatePerWeight amt address (buildUnspentMap l)).2.1 },
         .unlockAll :: .listUnspent ::
           (craftAfterCache inWeight outWeight cl feeRatePerWeight amt
             address (buildUnspentMap l)).2.2)
    | some m =>
      ((craftAfterCache inWeight outWeight cl feeRatePerWeight amt
          address m).1,
       { st with unspent := some (craftAfterCache inWeight outWeight cl
          feeRatePerWeight amt address m).2.1 },
       .unlockAll :: (craftAfterCache inWeight outWeight cl
         feeRatePerWeight amt address m).2.2)
  else (.error .unlockFailed, st, [.unlockAll])

/-! ## Lemmas about `selectInputsGo` -/

theorem sumSat_append (a b : List ListUnspentResult) :
    sumSat (a ++ b) = sumSat a + sumSat b := by
  induction a with
  | nil => simp [sumSat]
  | cons u rest ih => simp [sumSat, ih]; ring

theorem sumSat_nonneg {l : List ListUnspentResult} (h : allNonneg l) :
    0 ≤ sumSat l := by
  induction l with
  | nil => simp [sumSat]
  | cons u rest ih =>
    have h1 := h u (by simp)
    have h2 : allNonneg rest := fun v hv => h v (by simp [hv])
    have := ih h2
    simp only [sumSat]
    omega

theorem selectInputsGo_ok_sum (amt : Int) (l : List ListUnspentResult) :
    ∀ (s : Int) (acc : List ListUnspentResult) (t : Int)
      (sel : List ListUnspentResult),
      selectInputsGo amt l s acc = .ok (t, sel) →
      sumSat sel + s = sumSat acc + t := by
  induction l with
  | nil => intro s acc t sel h; simp [selectInputsGo] at h
  | cons u rest ih =>
    intro s acc t sel h
    cases hu : u.amount with
    | nonFinite => simp [selectInputsGo, hu, newAmount] at h
    | finite a =>
      simp only [selectInputsGo, hu, newAmount] at h
      split at h
      · cases h
        have : sumSat (acc ++ [u]) = sumSat acc + a := by
          simp [sumSat_append, sumSat, satOf, hu]
        omega
      · have := ih (s + a) (acc ++ [u]) t sel h
        have hA : sumSat (acc ++ [u]) = sumSat acc + a := by
          simp [sumSat_append, sumSat, satOf, hu]
        omega

theorem selectInputsGo_ok_ge (amt : Int) (l : List ListUnspentResult) :
    ∀ (s : Int) (acc : List ListUnspentResult) (t : Int)
      (sel : List ListUnspentResult),
      selectInputsGo amt l s acc = .ok (t, sel) → amt ≤ t := by
  induction l with
  | nil => intro s acc t sel h; simp [selectInputsGo] at h
  | cons u rest ih =>
    intro s acc t sel h
    cases hu : u.amount with
    | nonFinite => simp [selectInputsGo, hu, newAmount] at h
    | finite a =>
      simp only [selectInputsGo, hu, newAmount] at h
      split at h
      · cases h; omega
      · exact ih (s + a) (acc ++ [u]) t sel h

theorem selectInputsGo_ok_len_lt (amt : Int) (l : List ListUnspentResult) :
    ∀ (s : Int) (acc : List ListUnspentResult) (t : Int)
      (sel : List ListUnspentResult),
      selectInputsGo amt l s acc = .ok (t, sel) →
      acc.length < sel.length := by
  induction l with
  | nil => intro s acc t sel h; simp [selectInputsGo] at h
  | cons u rest ih =>
    intro s acc t sel h
    cases hu : u.amount with
    | nonFinite => simp [selectInputsGo, hu, newAmount] at h
    | finite a =>
      simp only [selectInputsGo, hu, newAmount] at h
      split at h
      · cases h; simp
      · have := ih (s + a) (acc ++ [u]) t sel h
        simp at this
        omega

theorem selectInputsGo_ok_len_le (amt : Int) (l : List ListUnspentResult) :
    ∀ (s : Int) (acc : List ListUnspentResult) (t : Int)
      (sel : List ListUnspentResult),
      selectInputsGo amt l s acc = .ok (t, sel) →
      sel.length ≤ acc.length + l.length := by
  induction l with
  | nil => intro s acc t sel h; simp [selectInputsGo] at h
  | cons u rest ih =>
    intro s acc t sel h
    cases hu : u.amount with
    | nonFinite => simp [selectInputsGo, hu, newAmount] at h
    | finite a =>
      simp only [selectInputsGo, hu, newAmount] at h
      split at h
      · cases h; simp
      · have := ih (s + a) (acc ++ [u]) t sel h
        simp at this ⊢
        omega

theorem selectInputsGo_mono (amt1 amt2 : Int) (h12 : amt1 ≤ amt2)
    (l : List ListUnspentResult) :
    ∀ (s : Int) (acc : List ListUnspentResult) (t2 : Int)
      (sel2 : List ListUnspentResult),
      selectInputsGo amt2 l s acc = .ok (t2, sel2) →
      ∃ t1 sel1, selectInputsGo amt1 l s acc = .ok (t1, sel1) ∧
        sel1.length ≤ sel2.length ∧
        (sel1.length = sel2.length → t1 = t2) := by
  induction l with
  | nil => intro s acc t2 sel2 h; simp [selectInputsGo] at h
  | cons u rest ih =>
    intro s acc t2 sel2 h
    cases hu : u.amount with
    | nonFinite => simp [selectInputsGo, hu, newAmount] at h
    | finite a =>
      simp only [selectInputsGo, hu, newAmount] at h ⊢
      split at h
      · -- s + a ≥ amt2, hence also ≥ amt1: both return here
        cases h
        rename_i hge2
        rw [if_pos (le_trans h12 hge2)]
        exact ⟨s + a, acc ++ [u], rfl, le_refl _, fun _ => rfl⟩
      · rename_i hlt2
        by_cases hge1 : s + a ≥ amt1
        · rw [if_pos hge1]
          refine ⟨s + a, acc ++ [u], rfl, ?_, ?_⟩
          · have := selectInputsGo_ok_len_lt amt2 rest (s + a) (acc ++ [u])
              t2 sel2 h
            omega
          · intro hlen
            have := selectInputsGo_ok_len_lt amt2 rest (s + a) (acc ++ [u])
              t2 sel2 h
            omega
        · rw [if_neg hge1]
          exact ih (s + a) (acc ++ [u]) t2 sel2 h

theorem selectInputsGo_insufficient (amt : Int) (l : List ListUnspentResult) :
    ∀ (s : Int) (acc : List ListUnspentResult) (needed avail : Int),
      selectInputsGo amt l s acc = .error (.insufficientFunds needed avail) →
      needed = amt ∧ avail = s + sumSat l ∧ (s < amt → avail < amt) := by
  induction l with
  | nil =>
    intro s acc needed avail h
    simp [selectInputsGo] at h
    obtain ⟨h1, h2⟩ := h
    refine ⟨h1.symm, by simp [sumSat, h2], fun hs => by omega⟩
  | cons u rest ih =>
    intro s acc needed avail h
    cases hu : u.amount with
    | nonFinite => simp [selectInputsGo, hu, newAmount] at h
    | finite a =>
      simp only [selectInputsGo, hu, newAmount] at h
      split at h
      · cases h
      · have := ih (s + a) (acc ++ [u]) needed avail h
        rename_i hlt
        have hsum : sumSat (u :: rest) = a + sumSat rest := by
          simp [sumSat, satOf, hu]
        refine ⟨this.1, by omega, fun hs => this.2.2 (by omega)⟩

theorem selectInputsGo_error_of_allFinite (amt : Int)
    (l : List ListUnspentResult) (hfin : allFinite l) :
    ∀ (s : Int) (acc : List ListUnspentResult) (e : CoinErr),
      selectInputsGo amt l s acc = .error e →
      ∃ needed avail, e = .insufficientFunds needed avail := by
  induction l with
  | nil =>
    intro s acc e h
    simp [selectInputsGo] at h
    exact ⟨amt, s, h.symm⟩
  | cons u rest ih =>
    intro s acc e h
    cases hu : u.amount with
    | nonFinite => exact absurd hu (hfin u (by simp))
    | finite a =>
      simp only [selectInputsGo, hu, newAmount] at h
      split at h
      · cases h
      · exact ih (fun v hv => hfin v (by simp [hv])) (s + a) (acc ++ [u]) e h

theorem selectInputsGo_exhausts (amt : Int) (l : List ListUnspentResult)
    (hfin : allFinite l) (hnn : allNonneg l) :
    ∀ (s : Int) (acc : List ListUnspentResult), s + sumSat l < amt →
      selectInputsGo amt l s acc =
        .error (.insufficientFunds amt (s + sumSat l)) := by
  induction l with
  | nil => intro s acc hs; simp [selectInputsGo, sumSat]
  | cons u rest ih =>
    intro s acc hs
    cases hu : u.amount with
    | nonFinite => exact absurd hu (hfin u (by simp))
    | finite a =>
      have hfin' : allFinite rest := fun v hv => hfin v (by simp [hv])
      have hnn' : allNonneg rest := fun v hv => hnn v (by simp [hv])
      have hrest : 0 ≤ sumSat rest := sumSat_nonneg hnn'
      have hsum : sumSat (u :: rest) = a + sumSat rest := by
        simp [sumSat, satOf, hu]
      simp only [selectInputsGo, hu, newAmount]
      rw [if_neg (by omega)]
      rw [ih hfin' hnn' (s + a) (acc ++ [u]) (by omega)]
      congr 2
      omega

/-! ## Lemmas about the `coinSelect` fee-convergence loop -/

theorem coinSelectLoop_ok_spec (iW oW R : Nat) (amt : Int)
    (unspent : List ListUnspentResult) :
    ∀ (fuel : Nat) (amtNeeded : Int) (res : SelectionResult),
      coinSelectLoop iW oW R amt unspent fuel amtNeeded = some (.ok res) →
      res.requiredFee = ((estimateWeight iW oW res.selectedUtxos.length 2) * R : Nat) ∧
      0 ≤ res.changeAmt ∧
      sumSat res.selectedUtxos = amt + res.requiredFee + res.changeAmt := by
  intro fuel
  induction fuel with
  | zero => intro amtNeeded res h; simp [coinSelectLoop] at h
  | succ fuel ih =>
    intro amtNeeded res h
    simp only [coinSelectLoop] at h
    cases hsel : selectInputs amtNeeded unspent with
    | error e => rw [hsel] at h; simp at h
    | ok p =>
      obtain ⟨t, sel⟩ := p
      rw [hsel] at h
      simp only at h
      split at h
      · exact ih _ res h
      · rename_i hge
        simp only [Option.some.injEq, Except.ok.injEq] at h
        subst h
        have hsum : sumSat sel + 0 = sumSat [] + t :=
          selectInputsGo_ok_sum amtNeeded unspent 0 [] t sel hsel
        simp only [sumSat] at hsum
        refine ⟨rfl, ?_, ?_⟩ <;> simp <;> omega

theorem coinSelectLoop_insufficient_spec (iW oW R : Nat) (amt : Int)
    (unspent : List ListUnspentResult) :
    ∀ (fuel : Nat) (amtNeeded needed avail : Int),
      coinSelectLoop iW oW R amt unspent fuel amtNeeded =
        some (.error (.insufficientFunds needed avail)) →
      avail = sumSat unspent ∧ amtNeeded ≤ needed ∧
      (0 < needed → avail < needed) := by
  intro fuel
  induction fuel with
  | zero => intro amtNeeded needed avail h; simp [coinSelectLoop] at h
  | succ fuel ih =>
    intro amtNeeded needed avail h
    simp only [coinSelectLoop] at h
    cases hsel : selectInputs amtNeeded unspent with
    | error e =>
      rw [hsel] at h
      simp only [Option.some.injEq, Except.error.injEq] at h
      subst h
      have := selectInputsGo_insufficient amtNeeded unspent 0 [] needed avail
        hsel
      refine ⟨by omega, le_of_eq this.1.symm, fun hpos => ?_⟩
      have h1 := this.1
      have h2 := this.2.2
      omega
    | ok p =>
      obtain ⟨t, sel⟩ := p
      rw [hsel] at h
      simp only at h
      split at h
      · rename_i hlt
        have hge : amtNeeded ≤ t :=
          selectInputsGo_ok_ge amtNeeded unspent 0 [] t sel hsel
        have := ih _ needed avail h
        refine ⟨this.1, ?_, this.2.2⟩
        have := this.2.1
        omega
      · simp at h

theorem coinSelectLoop_error_allFinite (iW oW R : Nat) (amt : Int)
    (unspent : List ListUnspentResult) (hfin : allFinite unspent) :
    ∀ (fuel : Nat) (amtNeeded : Int) (e : CoinErr),
      coinSelectLoop iW oW R amt unspent fuel amtNeeded = some (.error e) →
      ∃ needed avail, e = .insufficientFunds needed avail := by
  intro fuel
  induction fuel with
  | zero => intro amtNeeded e h; simp [coinSelectLoop] at h
  | succ fuel ih =>
    intro amtNeeded e h
    simp only [coinSelectLoop] at h
    cases hsel : selectInputs amtNeeded unspent with
    | error e' =>
      rw [hsel] at h
      simp only [Option.some.injEq, Except.error.injEq] at h
      subst h
      exact selectInputsGo_error_of_allFinite amtNeeded unspent hfin 0 [] _
        hsel
    | ok p =>
      obtain ⟨t, sel⟩ := p
      rw [hsel] at h
      simp only at h
      split at h
      · exact ih _ e h
      · simp at h

theorem coinSelectLoop_fuel (iW oW R : Nat) (amt : Int)
    (unspent : List ListUnspentResult) :
    ∀ (fuel : Nat) (amtNeeded : Int),
      (∀ e, selectInputs amtNeeded unspent = .error e → 1 ≤ fuel) →
      (∀ t sel, selectInputs amtNeeded unspent = .ok (t, sel) →
        unspent.length + 2 - sel.length ≤ fuel) →
      coinSelectLoop iW oW R amt unspent fuel amtNeeded ≠ none := by
  intro fuel
  induction fuel with
  | zero =>
    intro amtNeeded h1 h2
    cases hsel : selectInputs amtNeeded unspent with
    | error e => exact absurd (h1 e hsel) (by omega)
    | ok p =>
      obtain ⟨t, sel⟩ := p
      have hlen := selectInputsGo_ok_len_le amtNeeded unspent 0 [] t sel hsel
      have := h2 t sel hsel
      simp at hlen
      omega
  | succ fuel ih =>
    intro amtNeeded h1 h2
    simp only [coinSelectLoop]
    cases hsel : selectInputs amtNeeded unspent with
    | error e => simp
    | ok p =>
      obtain ⟨t, sel⟩ := p
      simp only
      split
      · rename_i hlt
        have hge : amtNeeded ≤ t :=
          selectInputsGo_ok_ge amtNeeded unspent 0 [] t sel hsel
        have hlenle := selectInputsGo_ok_len_le amtNeeded unspent 0 [] t sel
          hsel
        have hfuel := h2 t sel hsel
        simp at hlenle
        apply ih
        · intro e' _
          omega
        · intro t' sel' hsel'
          have hstep : amtNeeded ≤
              amt + ((estimateWeight iW oW sel.length 2) * R : Nat) := by
            omega
          obtain ⟨t1, sel1, heq, hle, hlen⟩ :=
            selectInputsGo_mono amtNeeded _ hstep unspent 0 [] t' sel' hsel'
          rw [show selectInputsGo amtNeeded unspent 0 [] = Except.ok (t, sel)
            from hsel] at heq
          simp only [Except.ok.injEq, Prod.mk.injEq] at heq
          obtain ⟨ht1, hsel1⟩ := heq
          subst ht1; subst hsel1
          by_cases hEq : sel.length = sel'.length
          · exfalso
            have ht : t = t' := hlen hEq
            have hge' : amt + ((estimateWeight iW oW sel.length 2) * R : Nat) ≤ t' :=
              selectInputsGo_ok_ge _ unspent 0 [] t' sel' hsel'
            omega
          · omega
      · simp

theorem coinSelect_ne_none (iW oW R : Nat) (amt : Int)
    (unspent : List ListUnspentResult) :
    coinSelect iW oW R amt unspent ≠ none := by
  apply coinSelectLoop_fuel
  · intro e _; omega
  · intro t sel hsel
    have h1 := selectInputsGo_ok_len_lt amt unspent 0 [] t sel hsel
    have h2 := selectInputsGo_ok_len_le amt unspent 0 [] t sel hsel
    simp at h1 h2
    omega

/-! ## Claims about the pure selection layer -/

/-- C1: for every requested amount, fee rate, and unspent set on which
`coinSelect` succeeds, the sum of the selected outputs' amounts is at
least `amt + requiredFee`, and the returned `changeAmt` equals
`sum(selected) - amt - requiredFee`, which is non-negative. -/
theorem coinSelect_sum_covers (iW oW R : Nat) (amt : Int)
    (unspent : List ListUnspentResult) (res : SelectionResult)
    (h : coinSelect iW oW R amt unspent = some (.ok res)) :
    amt + res.requiredFee ≤ sumSat res.selectedUtxos ∧
    res.changeAmt = sumSat res.selectedUtxos - amt - res.requiredFee ∧
    0 ≤ res.changeAmt := by
  have hspec := coinSelectLoop_ok_spec iW oW R amt unspent _ _ res h
  have h1 := hspec.2.1
  have h2 := hspec.2.2
  omega

theorem coinSelect_sum_covers_witness :
    (5 : Int) + (3 : Int) ≤ sumSat [⟨"a", 0, .finite 10⟩] ∧
    (2 : Int) = sumSat [⟨"a", 0, .finite 10⟩] - 5 - 3 ∧
    (0 : Int) ≤ (2 : Int) :=
  coinSelect_sum_covers 1 1 1 5 [⟨"a", 0, .finite 10⟩]
    ⟨[⟨"a", 0, .finite 10⟩], 2, 3⟩ (by decide)

/-- C2: for every unspent set (with its fixed iteration order), target
amount and fee rate, the fee-convergence loop of `coinSelect` terminates
within `|unspent| + 1` rounds (the fuel `coinSelect` supplies is always
sufficient), and — when every amount converts — it either converges to a
successful selection or fails with `ErrInsufficientFunds` after
exhausting the set. -/
theorem coinSelect_terminates (iW oW R : Nat) (amt : Int)
    (unspent : List ListUnspentResult) :
    (coinSelect iW oW R amt unspent).isSome = true ∧
    (allFinite unspent →
      ∀ e, coinSelect iW oW R amt unspent = some (.error e) →
        e.isInsufficient = true) := by
  constructor
  · cases h : coinSelect iW oW R amt unspent with
    | none => exact absurd h (coinSelect_ne_none iW oW R amt unspent)
    | some v => rfl
  · intro hfin e h
    obtain ⟨needed, avail, he⟩ :=
      coinSelectLoop_error_allFinite iW oW R amt unspent hfin _ amt e h
    rw [he]
    rfl

theorem coinSelect_terminates_witness :
    (coinSelect 1 1 1 5 []).isSome = true ∧
    (CoinErr.insufficientFunds 5 0).isInsufficient = true :=
  ⟨(coinSelect_terminates 1 1 1 5 []).1,
   (coinSelect_terminates 1 1 1 5 []).2 (by decide)
     (CoinErr.insufficientFunds 5 0) (by decide)⟩

/-- C5: for every successful selection, the returned `requiredFee` is
exactly the estimated weight of a transaction with one P2PKH input per
selected output and two P2PKH outputs (the destination and the
always-assumed change output) multiplied by the fee rate — the change
output's weight is counted even when the final `changeAmt` is zero. -/
theorem coinSelect_requiredFee_formula (iW oW R : Nat) (amt : Int)
    (unspent : List ListUnspentResult) (res : SelectionResult)
    (h : coinSelect iW oW R amt unspent = some (.ok res)) :
    res.requiredFee =
      ((estimateWeight iW oW res.selectedUtxos.length 2) * R : Nat) :=
  (coinSelectLoop_ok_spec iW oW R amt unspent _ _ res h).1

theorem coinSelect_requiredFee_formula_witness :
    (3 : Int) = ((estimateWeight 1 1 1 2) * 1 : Nat) :=
  coinSelect_requiredFee_formula 1 1 1 7 [⟨"a", 0, .finite 10⟩]
    ⟨[⟨"a", 0, .finite 10⟩], 0, 3⟩ (by decide)

/-- C3, counterexample: an unspent set that does cover the unfee'd target
amount (sum 100 ≥ 100) on which selection nevertheless fails with
`ErrInsufficientFunds` (after the restart that adds the estimated fee), so
"fails exactly when the set cannot cover even the unfee'd target" is
false. -/
theorem coinSelect_insufficient_despite_coverage :
    coinSelect 1 1 1 100 [⟨"a", 0, .finite 100⟩] =
      some (.error (.insufficientFunds 103 100)) ∧
    (100 : Int) ≤ sumSat [⟨"a", 0, .finite 100⟩] := by decide

/-- C3, amended: selection fails with `ErrInsufficientFunds{needed,
available}` exactly when the set cannot cover the needed amount of the
final round — the unfee'd target on the first round, the target plus the
previously estimated fee after a restart. Whenever it fails, `available`
is the total of the whole set, `needed` is at least the unfee'd target,
and (for positive needed amounts) `available < needed`; conversely, if
every amount converts, amounts are non-negative, and the whole set sums
below the unfee'd target, selection fails with
`ErrInsufficientFunds{amt, sum(unspent)}`. -/
theorem coinSelect_insufficient_characterisation (iW oW R : Nat)
    (amt : Int) (unspent : List ListUnspentResult) :
    (∀ needed avail,
      coinSelect iW oW R amt unspent =
        some (.error (.insufficientFunds needed avail)) →
      avail = sumSat unspent ∧ amt ≤ needed ∧
        (0 < needed → avail < needed)) ∧
    (allFinite unspent → allNonneg unspent → sumSat unspent < amt →
      coinSelect iW oW R amt unspent =
        some (.error (.insufficientFunds amt (sumSat unspent)))) := by
  constructor
  · intro needed avail h
    exact coinSelectLoop_insufficient_spec iW oW R amt unspent _ amt needed
      avail h
  · intro hfin hnn hshort
    have hex := selectInputsGo_exhausts amt unspent hfin hnn 0 []
      (by omega)
    unfold coinSelect
    simp only [coinSelectLoop]
    rw [show selectInputs amt unspent =
      Except.error (.insufficientFunds amt (0 + sumSat unspent)) from hex]
    simp

theorem coinSelect_insufficient_characterisation_witness :
    (100 : Int) = sumSat [⟨"a", 0, .finite 100⟩] ∧
    (100 : Int) < 200 ∧
    coinSelect 1 1 1 200 [⟨"a", 0, .finite 100⟩] =
      some (.error (.insufficientFunds 200
        (sumSat [⟨"a", 0, .finite 100⟩]))) :=
  ⟨((coinSelect_insufficient_characterisation 1 1 1 200
      [⟨"a", 0, .finite 100⟩]).1 200 100 (by decide)).1,
   ((coinSelect_insufficient_characterisation 1 1 1 200
      [⟨"a", 0, .finite 100⟩]).1 200 100 (by decide)).2.2 (by decide),
   (coinSelect_insufficient_characterisation 1 1 1 200
      [⟨"a", 0, .finite 100⟩]).2 (by decide) (by decide) (by decide)⟩

/-! ## Lemmas about the crafting sequence -/

theorem lockSelected_events_are_locks (cl : ClientModel)
    (l : List ListUnspentResult) :
    ∀ ev ∈ (lockSelected cl l).2, ev.isLockEvent = true := by
  induction l with
  | nil => intro ev hev; simp [lockSelected] at hev
  | cons u rest ih =>
    intro ev hev
    simp only [lockSelected] at hev
    split at hev
    · split at hev
      · cases hrec : lockSelected cl rest with
        | mk lr tr =>
          rw [hrec] at hev ih
          cases lr with
          | error e =>
            simp only at hev
            rcases List.mem_cons.mp hev with h | h
            · subst h; rfl
            · exact ih ev h
          | ok ins =>
            simp only at hev
            rcases List.mem_cons.mp hev with h | h
            · subst h; rfl
            · exact ih ev h
      · simp only at hev
        rcases List.mem_cons.mp hev with h | h
        · subst h; rfl
        · simp at h
    · simp at hev

theorem lockSelected_no_listUnspent (cl : ClientModel)
    (l : List ListUnspentResult) :
    NodeEvent.listUnspent ∉ (lockSelected cl l).2 := by
  intro h
  have := lockSelected_events_are_locks cl l _ h
  simp [NodeEvent.isLockEvent] at this

theorem lockSelected_no_getNewAddress (cl : ClientModel)
    (l : List ListUnspentResult) :
    NodeEvent.getNewAddress ∉ (lockSelected cl l).2 := by
  intro h
  have := lockSelected_events_are_locks cl l _ h
  simp [NodeEvent.isLockEvent] at this

theorem craftAfterCache_shape (iW oW : Nat) (cl : ClientModel) (R : Nat)
    (amt : Int) (addr : String) (m : List ListUnspentResult) :
    (craftAfterCache iW oW cl R amt addr m).2.1 = m ∨
    ∃ out, (craftAfterCache iW oW cl R amt addr m).1 = .ok out := by
  unfold craftAfterCache
  split
  · exact Or.inl rfl
  · exact Or.inl rfl
  · split
    · exact Or.inl rfl
    · split
      · unfold finishCreate
        split
        · exact Or.inl rfl
        · exact Or.inr ⟨_, rfl⟩
      · split
        · exact Or.inl rfl
        · unfold finishCreate
          split
          · exact Or.inl rfl
          · exact Or.inr ⟨_, rfl⟩

theorem craftAfterCache_no_listUnspent (iW oW : Nat) (cl : ClientModel)
    (R : Nat) (amt : Int) (addr : String) (m : List ListUnspentResult) :
    NodeEvent.listUnspent ∉ (craftAfterCache iW oW cl R amt addr m).2.2 := by
  unfold craftAfterCache
  split
  · simp
  · simp
  · rename_i res hcs
    split
    · rename_i e tr heq
      have h0 := lockSelected_no_listUnspent cl res.selectedUtxos
      rw [heq] at h0
      exact h0
    · rename_i inputs tr heq
      have htr : NodeEvent.listUnspent ∉ tr := by
        have h0 := lockSelected_no_listUnspent cl res.selectedUtxos
        rw [heq] at h0
        exact h0
      split
      · unfold finishCreate
        split
        · simp [htr]
        · simp [htr]
      · split
        · simp [htr]
        · unfold finishCreate
          split
          · simp [htr]
          · simp [htr]

theorem craftAfterCache_error_cache_unchanged (iW oW : Nat)
    (cl : ClientModel) (R : Nat) (amt : Int) (addr : String)
    (m : List ListUnspentResult) (e : CraftErr)
    (herr : (craftAfterCache iW oW cl R amt addr m).1 = .error e) :
    (craftAfterCache iW oW cl R amt addr m).2.1 = m := by
  rcases craftAfterCache_shape iW oW cl R amt addr m with h | ⟨out, h⟩
  · exact h
  · rw [h] at herr
    exact Except.noConfusion herr

theorem craftAfterCache_empty (iW oW : Nat) (cl : ClientModel) (R : Nat)
    (amt : Int) (addr : String) :
    craftAfterCache iW oW cl R amt addr [] =
      (.error (.selectFailed (.insufficientFunds amt 0)), [], []) := by
  unfold craftAfterCache coinSelect
  simp [coinSelectLoop, selectInputs, selectInputsGo]

theorem craftAfterCache_change_output (iW oW : Nat) (cl : ClientModel)
    (R : Nat) (amt : Int) (addr : String) (m : List ListUnspentResult)
    (res : SelectionResult) (out : String × Int)
    (hsel : coinSelect iW oW R amt m = some (.ok res))
    (hok : (craftAfterCache iW oW cl R amt addr m).1 = .ok out) :
    (0 < res.changeAmt →
      NodeEvent.getNewAddress ∈
        (craftAfterCache iW oW cl R amt addr m).2.2 ∧
      ∀ chAddr, cl.getNewAddress = .ok chAddr →
        NodeEvent.createRawTx
            (mapInsertOutput chAddr res.changeAmt
              (mapInsertOutput addr amt [])) ∈
          (craftAfterCache iW oW cl R amt addr m).2.2) ∧
    (res.changeAmt = 0 →
      NodeEvent.getNewAddress ∉
        (craftAfterCache iW oW cl R amt addr m).2.2 ∧
      NodeEvent.createRawTx (mapInsertOutput addr amt []) ∈
        (craftAfterCache iW oW cl R amt addr m).2.2) := by
  unfold craftAfterCache at hok ⊢
  rw [hsel] at hok ⊢
  simp only at hok ⊢
  cases hls : lockSelected cl res.selectedUtxos with
  | mk lr tr =>
    rw [hls] at hok
    cases lr with
    | error e => simp at hok
    | ok inputs =>
      simp only at hok
      have hnew : NodeEvent.getNewAddress ∉ tr := by
        have h0 := lockSelected_no_getNewAddress cl res.selectedUtxos
        rw [hls] at h0
        exact h0
      by_cases hz : res.changeAmt = 0
      · simp only [if_pos hz] at hok ⊢
        unfold finishCreate at hok ⊢
        cases hcr : cl.createRaw inputs (mapInsertOutput addr amt []) with
        | error _ =>
          try rw [hcr] at hok
          simp at hok
        | ok tx =>
          try rw [hcr] at hok
          try rw [hcr]
          try dsimp only at hok
          try dsimp only
          constructor
          · intro hpos
            exact absurd hz (by omega)
          · intro _
            refine ⟨?_, by simp⟩
            simp only [List.mem_append, List.mem_singleton]
            rintro (h | h)
            · exact hnew h
            · exact NodeEvent.noConfusion h
      · simp only [if_neg hz] at hok ⊢
        cases hna : cl.getNewAddress with
        | error _ =>
          try rw [hna] at hok
          simp at hok
        | ok chAddr =>
          try rw [hna] at hok
          try rw [hna]
          try dsimp only at hok
          try dsimp only
          unfold finishCreate at hok ⊢
          cases hcr : cl.createRaw inputs
              (mapInsertOutput chAddr res.changeAmt
                (mapInsertOutput addr amt [])) with
          | error _ =>
            try rw [hcr] at hok
            simp at hok
          | ok tx =>
            try rw [hcr] at hok
            try rw [hcr]
            try dsimp only at hok
            try dsimp only
            constructor
            · intro hpos
              constructor
              · simp
              · intro chAddr' hca
                have h2 : (Except.ok chAddr : Except Unit String) =
                    Except.ok chAddr' := hca
                injection h2 with h2
                subst h2
                simp
            · intro hzz
              exact absurd hzz hz

/-! ## Claims about the crafting orchestrator and the cache -/

/-- C4, counterexample: a craft that starts on an uninitialized (nil)
cache lazily syncs it and then fails in selection; the failed call has
mutated the cache (nil before, populated after), so "a failed craft
leaves the Unspent Output Cache unchanged" is false as stated. -/
theorem craft_lazy_sync_mutates_cache_on_failure :
    craftTransaction 1 1 (okClientWith [⟨"a", 0, .finite 1⟩]) ⟨6, none⟩ 1
        1000 "dest" =
      (.error (.selectFailed (.insufficientFunds 1000 1)),
       ⟨6, some [⟨"a", 0, .finite 1⟩]⟩, [.unlockAll, .listUnspent]) ∧
    (⟨6, some [⟨"a", 0, .finite 1⟩]⟩ : ConnState).unspent ≠
      (⟨6, none⟩ : ConnState).unspent := by decide

/-- C4, amended: a failing craft never removes entries from the cache —
if the cache was initialized when the call started, it is left exactly as
it was; the only mutation a failing craft can perform is the lazy sync
that populates a still-uninitialized cache. Removal happens only after
raw-transaction assembly has succeeded. -/
theorem craft_failure_preserves_initialized_cache (iW oW : Nat)
    (cl : ClientModel) (st : ConnState) (R : Nat) (amt : Int)
    (addr : String) (e : CraftErr) (st' : ConnState)
    (tr : List NodeEvent) (m : List ListUnspentResult)
    (hfail : craftTransaction iW oW cl st R amt addr = (.error e, st', tr))
    (hinit : st.unspent = some m) :
    st'.unspent = some m := by
  unfold craftTransaction at hfail
  by_cases hu : cl.unlockAllOk = true
  · rw [if_pos hu, hinit] at hfail
    dsimp only at hfail
    simp only [Prod.mk.injEq] at hfail
    obtain ⟨h1, h2, _⟩ := hfail
    have h4 := craftAfterCache_error_cache_unchanged iW oW cl R amt addr m
      e h1
    rw [← h2]
    show some (craftAfterCache iW oW cl R amt addr m).2.1 = some m
    rw [h4]
  · rw [if_neg hu] at hfail
    simp only [Prod.mk.injEq] at hfail
    obtain ⟨_, h2, _⟩ := hfail
    rw [← h2]
    exact hinit

theorem craft_failure_preserves_initialized_cache_witness :
    (⟨6, some []⟩ : ConnState).unspent = some [] :=
  craft_failure_preserves_initialized_cache 1 1 (okClientWith [])
    ⟨6, some []⟩ 1 5 "dest" (.selectFailed (.insufficientFunds 5 0))
    ⟨6, some []⟩ [.unlockAll] [] (by decide) rfl

/-- C6, counterexample: with an initialized but empty cache (a map synced
earlier to zero entries) and a node that does hold a covering output,
craft does not trigger sync — the `listUnspent` query is never issued and
selection runs over the empty cache, failing — so "if the cache is empty,
the orchestrator triggers sync() before running the Coin Selector" is
false as stated (the code checks for a nil cache, not an empty one). -/
theorem craft_no_sync_on_initialized_empty_cache :
    craftTransaction 1 1 (okClientWith [⟨"a", 0, .finite 50⟩]) ⟨6, some []⟩
        1 5 "dest" =
      (.error (.selectFailed (.insufficientFunds 5 0)), ⟨6, some []⟩,
       [.unlockAll]) ∧
    NodeEvent.listUnspent ∉ [NodeEvent.unlockAll] := by decide

/-- C6, amended: craft triggers sync() exactly when the cache is
uninitialized (nil): a craft on a nil cache whose unlock-all and node
listing succeed behaves exactly as a craft over the freshly synced set
(with the `listUnspent` query recorded), while a craft on an initialized
cache — however empty — never issues the `listUnspent` query. -/
theorem craft_sync_iff_uninitialized (iW oW : Nat) (cl : ClientModel)
    (mc R : Nat) (amt : Int) (addr : String)
    (hunlock : cl.unlockAllOk = true) :
    (∀ l, cl.listUnspent mc maxInt32 = .ok l →
      craftTransaction iW oW cl ⟨mc, none⟩ R amt addr =
        ((craftAfterCache iW oW cl R amt addr (buildUnspentMap l)).1,
         ⟨mc, some (craftAfterCache iW oW cl R amt addr
            (buildUnspentMap l)).2.1⟩,
         .unlockAll :: .listUnspent ::
           (craftAfterCache iW oW cl R amt addr (buildUnspentMap l)).2.2)) ∧
    (∀ m, NodeEvent.listUnspent ∉
      (craftTransaction iW oW cl ⟨mc, some m⟩ R amt addr).2.2) := by
  constructor
  · intro l hl
    unfold craftTransaction
    rw [if_pos hunlock]
    dsimp only
    rw [hl]
  · intro m
    unfold craftTransaction
    rw [if_pos hunlock]
    dsimp only
    intro hmem
    rcases List.mem_cons.mp hmem with h | h
    · exact NodeEvent.noConfusion h
    · exact craftAfterCache_no_listUnspent iW oW cl R amt addr m h

theorem craft_sync_iff_uninitialized_witness :
    craftTransaction 1 1 (okClientWith [⟨"a", 0, .finite 10⟩]) ⟨6, none⟩ 1 5
        "dest" =
      ((craftAfterCache 1 1 (okClientWith [⟨"a", 0, .finite 10⟩]) 1 5 "dest"
          (buildUnspentMap [⟨"a", 0, .finite 10⟩])).1,
       ⟨6, some (craftAfterCache 1 1 (okClientWith [⟨"a", 0, .finite 10⟩]) 1
          5 "dest" (buildUnspentMap [⟨"a", 0, .finite 10⟩])).2.1⟩,
       .unlockAll :: .listUnspent ::
         (craftAfterCache 1 1 (okClientWith [⟨"a", 0, .finite 10⟩]) 1 5
           "dest" (buildUnspentMap [⟨"a", 0, .finite 10⟩])).2.2) ∧
    NodeEvent.listUnspent ∉
      (craftTransaction 1 1 (okClientWith [⟨"a", 0, .finite 10⟩])
        ⟨6, some []⟩ 1 5 "dest").2.2 :=
  ⟨(craft_sync_iff_uninitialized 1 1 (okClientWith [⟨"a", 0, .finite 10⟩]) 6
      1 5 "dest" rfl).1 [⟨"a", 0, .finite 10⟩] rfl,
   (craft_sync_iff_uninitialized 1 1 (okClientWith [⟨"a", 0, .finite 10⟩]) 6
      1 5 "dest" rfl).2 []⟩

/-- C7: a craft over an empty unspent cache (initialized empty, or nil
with the node reporting no outputs) and a positive target fails with
`ErrInsufficientFunds{needed = target, available = 0}` wrapped by the
orchestrator, and no per-output lock call is issued during the call. -/
theorem craft_empty_cache_insufficient (iW oW : Nat) (cl : ClientModel)
    (st : ConnState) (R : Nat) (amt : Int) (addr : String)
    (hunlock : cl.unlockAllOk = true) (_hpos : 0 < amt)
    (hempty : st.unspent = some [] ∨
      (st.unspent = none ∧
        cl.listUnspent st.minConfirmations maxInt32 = .ok [])) :
    (craftTransaction iW oW cl st R amt addr).1 =
      .error (.selectFailed (.insufficientFunds amt 0)) ∧
    ∀ t v, NodeEvent.lockOutput t v ∉
      (craftTransaction iW oW cl st R amt addr).2.2 := by
  obtain ⟨mc, u⟩ := st
  rcases hempty with h | ⟨h, hl⟩
  · replace h : u = some [] := h
    subst h
    unfold craftTransaction
    rw [if_pos hunlock]
    dsimp only
    rw [craftAfterCache_empty]
    exact ⟨rfl, by intro t v; simp⟩
  · replace h : u = none := h
    subst h
    unfold craftTransaction
    rw [if_pos hunlock]
    dsimp only
    rw [hl]
    dsimp only
    rw [show buildUnspentMap [] = ([] : List ListUnspentResult) from rfl]
    rw [craftAfterCache_empty]
    exact ⟨rfl, by intro t v; simp⟩

theorem craft_empty_cache_insufficient_witness :
    (craftTransaction 1 1 (okClientWith []) ⟨6, some []⟩ 1 5 "dest").1 =
      .error (.selectFailed (.insufficientFunds 5 0)) ∧
    NodeEvent.lockOutput "a" 0 ∉
      (craftTransaction 1 1 (okClientWith []) ⟨6, some []⟩ 1 5 "dest").2.2 :=
  ⟨(craft_empty_cache_insufficient 1 1 (okClientWith []) ⟨6, some []⟩ 1 5
      "dest" rfl (by decide) (Or.inl rfl)).1,
   (craft_empty_cache_insufficient 1 1 (okClientWith []) ⟨6, some []⟩ 1 5
      "dest" rfl (by decide) (Or.inl rfl)).2 "a" 0⟩

/-- C8: on every successful craft whose selection returned `res`, the
change amount is non-negative and a change output is added exactly when
it is positive: when `changeAmt > 0` a fresh change address is requested
from the node (`getNewAddress` appears in the call trace) and the output
map handed to `CreateRawTransaction` is the destination output plus a
change output paying `changeAmt` to that address; when `changeAmt = 0` no
change address is requested and the assembled output map holds only the
destination output. -/
theorem craft_change_output_iff (iW oW : Nat) (cl : ClientModel)
    (mc R : Nat) (amt : Int) (addr : String)
    (m : List ListUnspentResult) (res : SelectionResult)
    (out : String × Int)
    (hsel : coinSelect iW oW R amt m = some (.ok res))
    (hok : (craftTransaction iW oW cl ⟨mc, some m⟩ R amt addr).1 =
      .ok out) :
    0 ≤ res.changeAmt ∧
    (0 < res.changeAmt →
      NodeEvent.getNewAddress ∈
        (craftTransaction iW oW cl ⟨mc, some m⟩ R amt addr).2.2 ∧
      ∀ chAddr, cl.getNewAddress = .ok chAddr →
        NodeEvent.createRawTx
            (mapInsertOutput chAddr res.changeAmt
              (mapInsertOutput addr amt [])) ∈
          (craftTransaction iW oW cl ⟨mc, some m⟩ R amt addr).2.2) ∧
    (res.changeAmt = 0 →
      NodeEvent.getNewAddress ∉
        (craftTransaction iW oW cl ⟨mc, some m⟩ R amt addr).2.2 ∧
      NodeEvent.createRawTx (mapInsertOutput addr amt []) ∈
        (craftTransaction iW oW cl ⟨mc, some m⟩ R amt addr).2.2) := by
  have hunlock : cl.unlockAllOk = true := by
    by_contra hne
    unfold craftTransaction at hok
    rw [if_neg hne] at hok
    exact Except.noConfusion hok
  unfold craftTransaction at hok ⊢
  rw [if_pos hunlock] at hok ⊢
  dsimp only at hok ⊢
  have hnn : 0 ≤ res.changeAmt :=
    (coinSelectLoop_ok_spec iW oW R amt m (m.length + 1) amt res hsel).2.1
  have hmain := craftAfterCache_change_output iW oW cl R amt addr m res out
    hsel hok
  refine ⟨hnn, ?_, ?_⟩
  · intro hpos
    obtain ⟨h1, h2⟩ := hmain.1 hpos
    exact ⟨List.mem_cons_of_mem _ h1,
      fun c hc => List.mem_cons_of_mem _ (h2 c hc)⟩
  · intro hz
    obtain ⟨h1, h2⟩ := hmain.2 hz
    refine ⟨?_, List.mem_cons_of_mem _ h2⟩
    intro hmem
    rcases List.mem_cons.mp hmem with h | h
    · exact NodeEvent.noConfusion h
    · exact h1 h

theorem craft_change_output_iff_witness :
    (0 : Int) ≤ 2 ∧
    NodeEvent.getNewAddress ∈
      (craftTransaction 1 1 (okClientWith [])
        ⟨6, some [⟨"a", 0, .finite 10⟩]⟩ 1 5 "dest").2.2 ∧
    NodeEvent.createRawTx
        (mapInsertOutput "change-addr" 2 (mapInsertOutput "dest" 5 [])) ∈
      (craftTransaction 1 1 (okClientWith [])
        ⟨6, some [⟨"a", 0, .finite 10⟩]⟩ 1 5 "dest").2.2 :=
  let thm := craft_change_output_iff 1 1 (okClientWith []) 6 1 5 "dest"
    [⟨"a", 0, .finite 10⟩] ⟨[⟨"a", 0, .finite 10⟩], 2, 3⟩ ("rawtx", 3)
    (by decide) (by decide)
  ⟨thm.1, (thm.2.1 (by decide)).1,
   (thm.2.1 (by decide)).2 "change-addr" rfl⟩

/-- C9: `syncUnspent` queries the node for unspent outputs with
confirmations in `[MinConfirmations, MaxInt32]`; on success it replaces
the entire cached set with the map built from the node's reply; if the
query fails it returns an error and leaves the connector state — the
previous cache content included — exactly intact. -/
theorem syncUnspent_replace_or_intact (cl : ClientModel) (st : ConnState) :
    (∀ l, cl.listUnspent st.minConfirmations maxInt32 = .ok l →
      syncUnspent cl st =
        (.ok (), ⟨st.minConfirmations, some (buildUnspentMap l)⟩)) ∧
    (∀ e, cl.listUnspent st.minConfirmations maxInt32 = .error e →
      syncUnspent cl st = (.error .syncFailed, st)) := by
  constructor
  · intro l hl
    unfold syncUnspent
    rw [hl]
  · intro e he
    unfold syncUnspent
    rw [he]

theorem syncUnspent_replace_or_intact_witness :
    syncUnspent (okClientWith [⟨"a", 0, .finite 10⟩])
        ⟨6, some [⟨"b", 1, .finite 3⟩]⟩ =
      (.ok (), ⟨6, some (buildUnspentMap [⟨"a", 0, .finite 10⟩])⟩) ∧
    syncUnspent failListClient ⟨6, some [⟨"b", 1, .finite 3⟩]⟩ =
      (.error .syncFailed, ⟨6, some [⟨"b", 1, .finite 3⟩]⟩) :=
  ⟨(syncUnspent_replace_or_intact (okClientWith [⟨"a", 0, .finite 10⟩])
      ⟨6, some [⟨"b", 1, .finite 3⟩]⟩).1 [⟨"a", 0, .finite 10⟩] rfl,
   (syncUnspent_replace_or_intact failListClient
      ⟨6, some [⟨"b", 1, .finite 3⟩]⟩).2 () rfl⟩

/-- C10: when the greedy accumulation reaches an entry whose amount
`btcutil.NewAmount` cannot convert, selection fails with the conversion
error — which is not an `ErrInsufficientFunds` — and both `coinSelect`
and `craftTransaction` propagate it (the orchestrator wrapping it as its
selection failure), leaving the cache unchanged; so `ErrInsufficientFunds`
is not the only failure mode of selection. -/
theorem conversionError_distinct_and_propagates (iW oW : Nat)
    (cl : ClientModel) (mc R : Nat) (amt : Int) (addr : String)
    (unspent : List ListUnspentResult)
    (hconv : selectInputs amt unspent = .error .conversionError)
    (hunlock : cl.unlockAllOk = true) :
    coinSelect iW oW R amt unspent = some (.error .conversionError) ∧
    CoinErr.conversionError.isInsufficient = false ∧
    (craftTransaction iW oW cl ⟨mc, some unspent⟩ R amt addr).1 =
      .error (.selectFailed .conversionError) ∧
    (craftTransaction iW oW cl ⟨mc, some unspent⟩ R amt addr).2.1 =
      ⟨mc, some unspent⟩ := by
  have hcs : coinSelect iW oW R amt unspent =
      some (.error .conversionError) := by
    unfold coinSelect
    simp only [coinSelectLoop]
    rw [show selectInputs amt unspent =
      Except.error CoinErr.conversionError from hconv]
  refine ⟨hcs, rfl, ?_, ?_⟩
  · unfold craftTransaction
    rw [if_pos hunlock]
    dsimp only
    unfold craftAfterCache
    rw [hcs]
  · unfold craftTransaction
    rw [if_pos hunlock]
    dsimp only
    unfold craftAfterCache
    rw [hcs]

theorem conversionError_distinct_and_propagates_witness :
    coinSelect 1 1 1 1 [⟨"x", 0, .nonFinite⟩] =
      some (.error .conversionError) ∧
    CoinErr.conversionError.isInsufficient = false ∧
    (craftTransaction 1 1 (okClientWith [])
        ⟨6, some [⟨"x", 0, .nonFinite⟩]⟩ 1 1 "dest").1 =
      .error (.selectFailed .conversionError) ∧
    (craftTransaction 1 1 (okClientWith [])
        ⟨6, some [⟨"x", 0, .nonFinite⟩]⟩ 1 1 "dest").2.1 =
      ⟨6, some [⟨"x", 0, .nonFinite⟩]⟩ :=
  conversionError_distinct_and_propagates 1 1 (okClientWith []) 6 1 1
    "dest" [⟨"x", 0, .nonFinite⟩] (by decide) rfl
